import Mathlib

/-!
# Verification of the Fakernaija unique-value selector

Shallow embedding of the core of the `Faker9ja` (fakernaija) repository:

* `fakernaija/utils.py` : `load_json`, `validate_json_structure`,
  `get_unique_value`;
* `fakernaija/mixins/degree_mixin.py` : `Degree.degree` and the private copy
  `Degree._get_unique_value`.

Python `set[str]` is modelled as `Finset String`, `list[str]` as
`List String`, and `set(values)` as `List.toFinset`.  The call
`random.choice(list(available_values))` is modelled by an injected choice
function `choose : Finset String → Option String`; `none` models the
`IndexError` that `random.choice` raises on an empty sequence.  `ValidChoice`
says the injected function behaves like `random.choice` does: it fails exactly
on the empty set and otherwise returns a member of its argument.

The Python functions mutate `used_values` in place; the embedding threads the
used-set explicitly, returning the state of `used_values` after the call
together with the (optional) chosen value.
-/

namespace Fakernaija

/-- An injected stand-in for `random.choice(list(s))`: it must fail (raise
`IndexError`, i.e. return `none`) exactly on the empty set, and otherwise
return some member of the set. -/
def ValidChoice (choose : Finset String → Option String) : Prop :=
  ∀ s : Finset String,
    (s = ∅ → choose s = none) ∧ (s ≠ ∅ → ∃ x ∈ s, choose s = some x)

/-- A concrete choice function: the least element of the set in the
lexicographic order on strings, `none` on the empty set. -/
def minChoice (s : Finset String) : Option String :=
  if h : s.Nonempty then some (s.min' h) else none

/-- Decidable equality for `Except`, used to evaluate the embedding on
concrete inputs. -/
instance {ε α : Type} [DecidableEq ε] [DecidableEq α] :
    DecidableEq (Except ε α) := fun x y =>
  match x, y with
  | .ok a, .ok b => if h : a = b then .isTrue (by rw [h]) else .isFalse (by simp [h])
  | .ok _, .error _ => .isFalse (by simp)
  | .error _, .ok _ => .isFalse (by simp)
  | .error e, .error f => if h : e = f then .isTrue (by rw [h]) else .isFalse (by simp [h])

/-- The set `available_values = set(values) - used_values`
(`fakernaija/utils.py`, line 79). -/
def available_values (values : List String) (used_values : Finset String) :
    Finset String :=
  values.toFinset \ used_values

/-- The set handed to `random.choice` by `get_unique_value`: the available
values, or the whole (deduplicated) pool after the reset-clear when no value
is available. -/
def candidate_set (values : List String) (used_values : Finset String) :
    Finset String :=
  if available_values values used_values = ∅ then values.toFinset
  else available_values values used_values

/-- Embedding of `fakernaija/utils.py`, `get_unique_value(values,
used_values)`, lines 64–87.  Returns the state of `used_values` after the call (the function
may clear it in place) together with the result of
`random.choice(list(available_values))` (`none` = `IndexError`). -/
def get_unique_value (choose : Finset String → Option String)
    (values : List String) (used_values : Finset String) :
    Finset String × Option String :=
  let available_values := values.toFinset \ used_values
  if available_values = ∅ then
    let used_values : Finset String := ∅
    let available_values := values.toFinset
    (used_values, choose available_values)
  else
    (used_values, choose available_values)

/-- One select-then-record round as performed by `Degree.degree`
(`degree_mixin.py`, lines 59–61): call the selector, then insert the returned
value into the used-set.  `none` when the selector's `random.choice` fails. -/
def selectRecordRound (choose : Finset String → Option String)
    (values : List String) (used : Finset String) :
    Option (String × Finset String) :=
  match get_unique_value choose values used with
  | (_, none) => none
  | (u, some v) => some (v, insert v u)

/-- Iterated select-then-record rounds on a fixed pool, returning the
list of values produced (in order) and the final used-set. -/
def selectRecordRounds (choose : Finset String → Option String)
    (values : List String) : Nat → Finset String →
    Option (List String × Finset String)
  | 0, used => some ([], used)
  | n + 1, used =>
    match selectRecordRound choose values used with
    | none => none
    | some (v, u) =>
      (selectRecordRounds choose values n u).map fun p => (v :: p.1, p.2)

namespace Degree

/-- Embedding of `fakernaija/mixins/degree_mixin.py`,
`Degree._get_unique_value`, lines 63–86 (the mixin's private copy of the selector); modelled exactly like
`Fakernaija.get_unique_value`, transcribed from the mixin's own code. -/
def _get_unique_value (choose : Finset String → Option String)
    (values : List String) (used_values : Finset String) :
    Finset String × Option String :=
  let available_values := values.toFinset \ used_values
  if available_values = ∅ then
    let used_values : Finset String := ∅
    let available_values := values.toFinset
    (used_values, choose available_values)
  else
    (used_values, choose available_values)

end Degree

/-- Errors `Degree.degree` can raise. -/
inductive DegreeError where
  /-- Python `ValueError`: invalid `degree_type` (`degree_mixin.py`,
  lines 51–53). -/
  | invalidDegreeType
  /-- Python `IndexError` raised by `random.choice` on an empty sequence inside the
  selector. -/
  | indexError
deriving DecidableEq

/-- Python truthiness of a `str | None` argument: `None` and `""` are falsy. -/
def truthy : Option String → Bool
  | none => false
  | some s => !s.isEmpty

/-- Embedding of `fakernaija/mixins/degree_mixin.py`, `Degree.degree`,
lines 16–61.
The provider (`DegreeProvider.get_degrees` / `get_degree_initials`) is not in
the modelled sources, so it is abstracted as the parameters `getDegrees` and
`getDegreeInitials`; `degree_type : Option String` models `str | None`.
Returns the state of `self._used_degrees` after the call together with the
result: the chosen degree, or the error raised. -/
def degreeCall (choose : Finset String → Option String)
    (getDegrees getDegreeInitials : Option String → List String)
    (degree_type : Option String) (initial : Bool)
    (used_degrees : Finset String) :
    Finset String × Except DegreeError String :=
  if truthy degree_type = true ∧
      degree_type ∉ [some "undergraduate", some "masters", some "doctorate"] then
    (used_degrees, .error .invalidDegreeType)
  else
    let degrees :=
      if initial then getDegreeInitials degree_type else getDegrees degree_type
    match get_unique_value choose degrees used_degrees with
    | (u, none) => (u, .error .indexError)
    | (u, some v) => (insert v u, .ok v)

/-- A JSON entry (`dict[str, Any]`), modelled as an association list from
keys to (string) values; `entry.keys()` is the list of first components. -/
abbrev Entry := List (String × String)

/-- The key set `set(entry.keys())` of an entry. -/
def entryKeys (entry : Entry) : Finset String :=
  (entry.map Prod.fst).toFinset

/-- Error raised by `validate_json_structure`. -/
inductive ValidationError where
  /-- Python `ValueError`: missing keys in an entry (`utils.py`,
  lines 56–58). -/
  | missingKeys (keys : Finset String) (entry : Entry)
  /-- Python `ValueError`: invalid (extra) keys in an entry (`utils.py`,
  lines 59–61). -/
  | invalidKeys (keys : Finset String) (entry : Entry)
deriving DecidableEq

/-- Embedding of `fakernaija/utils.py`,
`validate_json_structure(data, required_keys)`, lines 36–61: for each entry, compare its key set with the required key set;
raise on the first entry with missing or extra keys. -/
def validate_json_structure (data : List Entry) (required_keys : List String) :
    Except ValidationError Unit :=
  match data with
  | [] => .ok ()
  | entry :: rest =>
    let entry_keys := entryKeys entry
    let required_keys_set := required_keys.toFinset
    let missing_keys := required_keys_set \ entry_keys
    let invalid_keys := entry_keys \ required_keys_set
    if missing_keys ≠ ∅ then .error (.missingKeys missing_keys entry)
    else if invalid_keys ≠ ∅ then .error (.invalidKeys invalid_keys entry)
    else validate_json_structure rest required_keys

/-- Embedding of `fakernaija/utils.py`, `load_json`, lines 9–33, after a
successful read
and JSON decode: validate the structure and return the data unchanged.
(The file-reading and JSON-decoding parts are I/O and are outside the
embedding; their `FileNotFoundError` / decode-`ValueError` branches are not
modelled.) -/
def load_json (data : List Entry) (required_keys : List String) :
    Except ValidationError (List Entry) :=
  (validate_json_structure data required_keys).map fun _ => data

/-! ## Helper lemmas -/

theorem validChoice_minChoice : ValidChoice minChoice := by
  intro s
  refine ⟨fun hs => ?_, fun hs => ?_⟩
  · subst hs
    simp [minChoice]
  · have hne : s.Nonempty := Finset.nonempty_iff_ne_empty.mpr hs
    exact ⟨s.min' hne, s.min'_mem hne, by rw [minChoice, dif_pos hne]⟩

theorem get_unique_value_of_not_exhausted {values : List String}
    {used : Finset String} (h : values.toFinset \ used ≠ ∅)
    (choose : Finset String → Option String) :
    get_unique_value choose values used =
      (used, choose (values.toFinset \ used)) := by
  simp only [get_unique_value, if_neg h]

theorem get_unique_value_of_exhausted {values : List String}
    {used : Finset String} (h : values.toFinset \ used = ∅)
    (choose : Finset String → Option String) :
    get_unique_value choose values used = (∅, choose values.toFinset) := by
  simp only [get_unique_value, if_pos h]

theorem mem_of_validChoice {choose : Finset String → Option String}
    (hc : ValidChoice choose) {s : Finset String} {v : String}
    (h : choose s = some v) : v ∈ s := by
  by_cases hs : s = ∅
  · rw [(hc s).1 hs] at h
    cases h
  · obtain ⟨x, hx, hcx⟩ := (hc s).2 hs
    rw [hcx] at h
    cases h
    exact hx

theorem validChoice_isSome {choose : Finset String → Option String}
    (hc : ValidChoice choose) {s : Finset String} (hs : s ≠ ∅) :
    (choose s).isSome := by
  obtain ⟨x, _, hcx⟩ := (hc s).2 hs
  rw [hcx]
  rfl

theorem snd_get_unique_value_mem {choose : Finset String → Option String}
    (hc : ValidChoice choose) {values : List String} {used : Finset String}
    {v : String} (h : (get_unique_value choose values used).2 = some v) :
    v ∈ values := by
  by_cases hex : values.toFinset \ used = ∅
  · rw [get_unique_value_of_exhausted hex] at h
    exact List.mem_toFinset.mp (mem_of_validChoice hc h)
  · rw [get_unique_value_of_not_exhausted hex] at h
    have := mem_of_validChoice hc h
    exact List.mem_toFinset.mp (Finset.mem_sdiff.mp this).1

theorem get_unique_value_total {choose : Finset String → Option String}
    (hc : ValidChoice choose) {values : List String} (hv : values ≠ [])
    (used : Finset String) :
    ∃ v ∈ values, (get_unique_value choose values used).2 = some v := by
  have hnf : values.toFinset ≠ ∅ := fun h => hv ((List.toFinset_eq_empty_iff values).mp h)
  by_cases hex : values.toFinset \ used = ∅
  · obtain ⟨x, hx, hcx⟩ := (hc values.toFinset).2 hnf
    exact ⟨x, List.mem_toFinset.mp hx, by rw [get_unique_value_of_exhausted hex]; exact hcx⟩
  · obtain ⟨x, hx, hcx⟩ := (hc _).2 hex
    refine ⟨x, List.mem_toFinset.mp (Finset.mem_sdiff.mp hx).1, ?_⟩
    rw [get_unique_value_of_not_exhausted hex]
    exact hcx

theorem selectRecordRounds_spec {choose : Finset String → Option String}
    (hc : ValidChoice choose) (values : List String) :
    ∀ (k : Nat) (used : Finset String), used ⊆ values.toFinset →
      used.card + k ≤ values.toFinset.card →
      ∃ vs u, selectRecordRounds choose values k used = some (vs, u) ∧
        vs.length = k ∧ vs.Nodup ∧
        (∀ v ∈ vs, v ∈ values.toFinset ∧ v ∉ used) ∧
        u = used ∪ vs.toFinset := by
  intro k
  induction k with
  | zero =>
    intro used _ _
    exact ⟨[], used, rfl, rfl, List.nodup_nil, by simp, by simp⟩
  | succ k ih =>
    intro used hsub hcard
    have hlt : used.card < values.toFinset.card := by omega
    have hne : values.toFinset \ used ≠ ∅ := by
      intro h
      have h2 := Finset.card_le_card (Finset.sdiff_eq_empty_iff_subset.mp h)
      omega
    obtain ⟨v, hv, hcv⟩ := (hc _).2 hne
    rw [Finset.mem_sdiff] at hv
    have hgv : get_unique_value choose values used = (used, some v) := by
      rw [get_unique_value_of_not_exhausted hne, hcv]
    have hused : (insert v used).card = used.card + 1 :=
      Finset.card_insert_of_not_mem hv.2
    obtain ⟨vs, u, hrec, hlen, hnd, hmem, hu⟩ :=
      ih (insert v used) (Finset.insert_subset hv.1 hsub) (by omega)
    have hround : selectRecordRound choose values used
        = some (v, insert v used) := by
      simp only [selectRecordRound, hgv]
    refine ⟨v :: vs, u, ?_, by simp [hlen], ?_, ?_, ?_⟩
    · simp [selectRecordRounds, hround, hrec]
    · refine List.nodup_cons.mpr ⟨fun hvvs => ?_, hnd⟩
      exact (hmem v hvvs).2 (Finset.mem_insert_self v used)
    · intro w hw
      rcases List.mem_cons.mp hw with rfl | hwvs
      · exact ⟨hv.1, hv.2⟩
      · exact ⟨(hmem w hwvs).1,
          fun hwu => (hmem w hwvs).2 (Finset.mem_insert_of_mem hwu)⟩
    · rw [hu, List.toFinset_cons, Finset.insert_union, Finset.union_insert]

theorem selectRecordRounds_add (choose : Finset String → Option String)
    (values : List String) (m n : Nat) :
    ∀ used : Finset String,
      selectRecordRounds choose values (m + n) used =
        match selectRecordRounds choose values m used with
        | none => none
        | some (vs, u) =>
          (selectRecordRounds choose values n u).map fun p =>
            (vs ++ p.1, p.2) := by
  induction m with
  | zero =>
    intro used
    rw [Nat.zero_add]
    show selectRecordRounds choose values n used
      = (selectRecordRounds choose values n used).map fun p => ([] ++ p.1, p.2)
    cases selectRecordRounds choose values n used with
    | none => rfl
    | some p => rfl
  | succ m ih =>
    intro used
    have hmn : m + 1 + n = m + n + 1 := by omega
    rw [hmn]
    simp only [selectRecordRounds]
    cases hr : selectRecordRound choose values used with
    | none => rfl
    | some p =>
      rcases p with ⟨v, u'⟩
      simp only [ih u']
      cases hm : selectRecordRounds choose values m u' with
      | none => rfl
      | some q =>
        rcases q with ⟨vs, u''⟩
        cases hn : selectRecordRounds choose values n u'' with
        | none => simp [hn, Option.map_map]
        | some r => simp [hn, Option.map_map, Function.comp]

/-! ## Claims -/

/-- Claim C1 — No-repeat-until-exhaustion: for every pool of `N ≥ 2` distinct
strings and a used-set starting empty, `N` consecutive select-then-record
rounds (selector call followed by inserting the result into the used-set, as
`degree()` does) succeed and return `N` pairwise-distinct values. -/
theorem C1_no_repeat_until_exhaustion (choose : Finset String → Option String)
    (hc : ValidChoice choose) (values : List String) (hnd : values.Nodup)
    (hN : 2 ≤ values.length) :
    ∃ vs u,
      selectRecordRounds choose values values.length ∅ = some (vs, u) ∧
        vs.length = values.length ∧ vs.Nodup := by
  have hcard : values.toFinset.card = values.length :=
    List.toFinset_card_of_nodup hnd
  obtain ⟨vs, u, h1, h2, h3, -, -⟩ :=
    selectRecordRounds_spec hc values values.length ∅ (Finset.empty_subset _)
      (by simp [hcard])
  exact ⟨vs, u, h1, h2, h3⟩

/-- Witness for C1: two rounds on the two-element pool `["A", "B"]`. -/
theorem C1_witness :
    ValidChoice minChoice ∧ (["A", "B"] : List String).Nodup ∧
      2 ≤ (["A", "B"] : List String).length ∧
      ∃ vs u, selectRecordRounds minChoice ["A", "B"] 2 ∅ = some (vs, u) ∧
        vs.length = 2 ∧ vs.Nodup :=
  ⟨validChoice_minChoice, by decide, by decide,
    C1_no_repeat_until_exhaustion minChoice validChoice_minChoice ["A", "B"]
      (by decide) (by decide)⟩

/-- Claim C2 — Reset-on-exhaustion: when every distinct pool value is already in
the used-set, the selector clears the used-set and chooses from the full pool,
so the select-then-record round leaves the used-set with exactly the chosen
value; consequently, on a pool of `N` distinct values, the `(N+1)`-th round
starting from an empty used-set succeeds and leaves a used-set with exactly
one member. -/
theorem C2_reset_on_exhaustion (choose : Finset String → Option String)
    (hc : ValidChoice choose) (values : List String) (hv : values ≠ []) :
    (∀ used : Finset String, values.toFinset ⊆ used →
        ∃ v ∈ values, get_unique_value choose values used = (∅, some v) ∧
          selectRecordRound choose values used = some (v, {v})) ∧
      (values.Nodup →
        ∃ vs u, selectRecordRounds choose values (values.length + 1) ∅
            = some (vs, u) ∧ u.card = 1) := by
  have hnf : values.toFinset ≠ ∅ := fun h =>
    hv ((List.toFinset_eq_empty_iff values).mp h)
  have hpart1 : ∀ used : Finset String, values.toFinset ⊆ used →
      ∃ v ∈ values, get_unique_value choose values used = (∅, some v) ∧
        selectRecordRound choose values used = some (v, {v}) := by
    intro used hsub
    have hex : values.toFinset \ used = ∅ :=
      Finset.sdiff_eq_empty_iff_subset.mpr hsub
    obtain ⟨v, hvmem, hcv⟩ := (hc values.toFinset).2 hnf
    have hgv : get_unique_value choose values used = (∅, some v) := by
      rw [get_unique_value_of_exhausted hex, hcv]
    refine ⟨v, List.mem_toFinset.mp hvmem, hgv, ?_⟩
    simp [selectRecordRound, hgv]
  refine ⟨hpart1, fun hnd => ?_⟩
  have hcard : values.toFinset.card = values.length :=
    List.toFinset_card_of_nodup hnd
  obtain ⟨vs, u0, h1, hlen, hvnd, hmem, hu⟩ :=
    selectRecordRounds_spec hc values values.length ∅ (Finset.empty_subset _)
      (by simp [hcard])
  have hu0 : u0 = vs.toFinset := by simpa using hu
  have hsub2 : vs.toFinset ⊆ values.toFinset := fun x hx =>
    (hmem x (List.mem_toFinset.mp hx)).1
  have hvs : vs.toFinset = values.toFinset := by
    refine Finset.eq_of_subset_of_card_le hsub2 ?_
    rw [List.toFinset_card_of_nodup hvnd, hlen, hcard]
  obtain ⟨v, -, -, hround⟩ := hpart1 u0 (by rw [hu0, hvs])
  refine ⟨vs ++ [v], {v}, ?_, Finset.card_singleton v⟩
  rw [selectRecordRounds_add choose values values.length 1 ∅, h1]
  simp [selectRecordRounds, hround]

/-- Witness for C2: the exhausted used-set on the pool `["A", "B"]`, and
three rounds on that two-element pool. -/
theorem C2_witness :
    ValidChoice minChoice ∧ (["A", "B"] ≠ ([] : List String)) ∧
      ((["A", "B"] : List String).toFinset ⊆ ({"A", "B"} : Finset String)) ∧
      (∃ v ∈ ["A", "B"],
          get_unique_value minChoice ["A", "B"] {"A", "B"} = (∅, some v) ∧
            selectRecordRound minChoice ["A", "B"] {"A", "B"}
              = some (v, {v})) ∧
      ∃ vs u, selectRecordRounds minChoice ["A", "B"] 3 ∅ = some (vs, u) ∧
        u.card = 1 :=
  ⟨validChoice_minChoice, by simp, by decide,
    (C2_reset_on_exhaustion minChoice validChoice_minChoice ["A", "B"]
        (by simp)).1 {"A", "B"} (by decide),
    (C2_reset_on_exhaustion minChoice validChoice_minChoice ["A", "B"]
        (by simp)).2 (by decide)⟩

/-- Claim C3 — Pool membership of the result: for every non-empty pool and every
used-set, the value returned by the selector is a member of the pool; and a
successful `degree()` call returns a string belonging to the candidate list it
obtained from the provider. -/
theorem C3_selector_result_mem_pool (choose : Finset String → Option String)
    (hc : ValidChoice choose) :
    (∀ (values : List String) (used : Finset String), values ≠ [] →
        ∃ v ∈ values, (get_unique_value choose values used).2 = some v) ∧
      (∀ (getDegrees getDegreeInitials : Option String → List String)
          (degree_type : Option String) (initial : Bool)
          (used u : Finset String) (v : String),
        degreeCall choose getDegrees getDegreeInitials degree_type initial used
            = (u, .ok v) →
          v ∈ (if initial then getDegreeInitials degree_type
               else getDegrees degree_type)) := by
  refine ⟨fun values used hv => get_unique_value_total hc hv used, ?_⟩
  intro gD gI dt initial used u v h
  simp only [degreeCall] at h
  split at h
  · cases h
  · rcases hg : get_unique_value choose (if initial then gI dt else gD dt) used
      with ⟨u', o⟩
    rw [hg] at h
    rcases o with _ | w
    · simp at h
    · simp only [Prod.mk.injEq, Except.ok.injEq] at h
      rw [← h.2]
      exact snd_get_unique_value_mem hc (by rw [hg])

/-- Witness for C3 at a concrete pool, used-set and choice function. -/
theorem C3_witness :
    ValidChoice minChoice ∧ (["A", "B"] ≠ ([] : List String)) ∧
      ∃ v ∈ ["A", "B"], (get_unique_value minChoice ["A", "B"] {"A"}).2 = some v :=
  ⟨validChoice_minChoice, by simp,
    (C3_selector_result_mem_pool minChoice validChoice_minChoice).1
      ["A", "B"] {"A"} (by simp)⟩

/-- Counterexample to claim C4 as stated. The claim says an empty filtered pool is surfaced
as an error *before invoking the selector* — which would leave the used-set
untouched.  In the code, `degree()` has no empty-pool guard: the selector runs,
its reset-clear empties the used-set `{"A"}`, and only then does
`random.choice` on the empty candidate list raise `IndexError`.  (The choice
function `fun _ => none` models `random.choice`, which can only fail here,
since every candidate list it sees is empty.) -/
theorem C4_counterexample :
    degreeCall (fun _ => none) (fun _ => []) (fun _ => []) none false {"A"}
        = (∅, .error .indexError) ∧
      (∅ : Finset String) ≠ {"A"} :=
  ⟨by decide, by decide⟩

/-- Claim C4, amended — When the filtered candidate pool is empty (and the
`degree_type` validation passes), `degree()` does surface an error rather than
silently returning a value — but the error is the `IndexError` raised by
`random.choice` *inside* the selector, which has already performed its
reset-clear: the call leaves the used-set empty, not untouched. -/
theorem C4_empty_pool_error (choose : Finset String → Option String)
    (hc : ValidChoice choose)
    (getDegrees getDegreeInitials : Option String → List String)
    (degree_type : Option String) (initial : Bool) (used : Finset String)
    (hval : ¬(truthy degree_type = true ∧
      degree_type ∉ [some "undergraduate", some "masters", some "doctorate"]))
    (hpool : (if initial then getDegreeInitials degree_type
              else getDegrees degree_type) = []) :
    degreeCall choose getDegrees getDegreeInitials degree_type initial used
      = (∅, .error .indexError) := by
  have hg : get_unique_value choose
      (if initial then getDegreeInitials degree_type
       else getDegrees degree_type) used = (∅, none) := by
    rw [hpool, get_unique_value_of_exhausted (by simp)]
    simp [(hc ∅).1 rfl]
  simp only [degreeCall, if_neg hval, hg]

/-- Witness for the amended C4 at a concrete provider returning an empty
pool. -/
theorem C4_witness :
    ValidChoice minChoice ∧
      degreeCall minChoice (fun _ => []) (fun _ => []) none false {"A"}
        = (∅, .error .indexError) :=
  ⟨validChoice_minChoice,
    C4_empty_pool_error minChoice validChoice_minChoice (fun _ => [])
      (fun _ => []) none false {"A"} (by decide) rfl⟩

/-- Counterexample to claim C5 as stated. The claim says `degree()` raises `ValueError` for
*every* supplied `degree_type` outside `{"undergraduate", "masters",
"doctorate"}`, with no selection performed.  The empty string is such a value,
but Python's `if degree_type and ...` treats `""` as falsy, so validation is
skipped and a selection is performed: with a provider returning the pool
`["X"]`, the call succeeds with `"X"` and records it in the used-set. -/
theorem C5_counterexample :
    ("" ∉ ["undergraduate", "masters", "doctorate"]) ∧
      degreeCall (fun _ => some "X") (fun _ => ["X"]) (fun _ => [])
          (some "") false ∅
        = ({"X"}, .ok "X") :=
  ⟨by decide, by decide⟩

/-- Claim C5, amended — `degree()` raises the `degree_type` `ValueError` if and
only if the supplied value is *truthy* (neither `None` nor `""`) and outside
the recognized enumeration; in that case the used-set is unchanged and no
selection is performed.  The empty string bypasses validation like `None`
does. -/
theorem C5_filter_validation (choose : Finset String → Option String)
    (getDegrees getDegreeInitials : Option String → List String)
    (degree_type : Option String) (initial : Bool) (used : Finset String) :
    ((degreeCall choose getDegrees getDegreeInitials degree_type initial
          used).2 = .error .invalidDegreeType ↔
        truthy degree_type = true ∧
          degree_type ∉
            [some "undergraduate", some "masters", some "doctorate"]) ∧
      (truthy degree_type = true ∧
          degree_type ∉
            [some "undergraduate", some "masters", some "doctorate"] →
        degreeCall choose getDegrees getDegreeInitials degree_type initial
            used = (used, .error .invalidDegreeType)) := by
  by_cases hval : truthy degree_type = true ∧
      degree_type ∉ [some "undergraduate", some "masters", some "doctorate"]
  · have hcall : degreeCall choose getDegrees getDegreeInitials degree_type
        initial used = (used, .error .invalidDegreeType) := by
      rw [degreeCall, if_pos hval]
    rw [hcall]
    exact ⟨⟨fun _ => hval, fun _ => rfl⟩, fun _ => rfl⟩
  · rw [degreeCall, if_neg hval]
    refine ⟨⟨fun h => ?_, fun h => absurd h hval⟩, fun h => absurd h hval⟩
    exfalso
    revert h
    rcases hg : get_unique_value choose
        (if initial then getDegreeInitials degree_type
         else getDegrees degree_type) used with ⟨u, o⟩
    rcases o with _ | w <;> simp [hg]

/-- Witness for the amended C5: a truthy non-member `degree_type` is rejected
with the used-set unchanged. -/
theorem C5_witness :
    (truthy (some "bachelor") = true ∧
        (some "bachelor") ∉
          [some "undergraduate", some "masters", some "doctorate"]) ∧
      degreeCall (fun _ => none) (fun _ => ["X"]) (fun _ => [])
          (some "bachelor") false {"A"}
        = ({"A"}, .error .invalidDegreeType) :=
  ⟨by decide,
    (C5_filter_validation (fun _ => none) (fun _ => ["X"]) (fun _ => [])
        (some "bachelor") false {"A"}).2 (by decide)⟩

/-- Claim C6 — Frame property of the selector: when at least one distinct pool
value is not in the used-set, the used-set is left exactly unchanged; when the
pool is exhausted, the only mutation is the reset-clear.  (The pool argument
is never part of the selector's output state: the embedding returns only the
used-set and the chosen value, mirroring that `get_unique_value` never mutates
`values`.) -/
theorem C6_selector_frame (choose : Finset String → Option String)
    (values : List String) (used : Finset String) :
    ((∃ v ∈ values, v ∉ used) →
        (get_unique_value choose values used).1 = used) ∧
      ((∀ v ∈ values, v ∈ used) →
        (get_unique_value choose values used).1 = ∅) := by
  constructor
  · rintro ⟨v, hv, hvu⟩
    have hne : values.toFinset \ used ≠ ∅ := by
      intro h
      exact hvu (Finset.sdiff_eq_empty_iff_subset.mp h (List.mem_toFinset.mpr hv))
    rw [get_unique_value_of_not_exhausted hne]
  · intro h
    have hsub : values.toFinset ⊆ used := fun x hx =>
      h x (List.mem_toFinset.mp hx)
    rw [get_unique_value_of_exhausted (Finset.sdiff_eq_empty_iff_subset.mpr hsub)]

/-- Witness for C6 at a concrete pool, used-set and choice function. -/
theorem C6_witness :
    (∃ v ∈ ["A", "B"], v ∉ ({"A"} : Finset String)) ∧
      (get_unique_value (fun _ => none) ["A", "B"] {"A"}).1 = {"A"} :=
  ⟨by decide, (C6_selector_frame (fun _ => none) ["A", "B"] {"A"}).1 (by decide)⟩

/-- Claim C7 — Duplicate-invariance of selection: two pools with the same set of
distinct values (in particular, a pool and any permutation or duplication of
its entries) give the selector the same available set, the same candidate set
handed to `random.choice`, and the same result and final used-set for every
choice function. -/
theorem C7_duplicate_invariance (choose : Finset String → Option String)
    (used : Finset String) (l₁ l₂ : List String)
    (h : l₁.toFinset = l₂.toFinset) :
    available_values l₁ used = available_values l₂ used ∧
      candidate_set l₁ used = candidate_set l₂ used ∧
      get_unique_value choose l₁ used = get_unique_value choose l₂ used := by
  refine ⟨?_, ?_, ?_⟩ <;>
    simp only [available_values, candidate_set, get_unique_value, h]

/-- Witness for C7: a pool with a duplicated entry against its deduplicated
permutation. -/
theorem C7_witness :
    available_values ["A", "B", "A"] {"A"} = available_values ["B", "A"] {"A"} ∧
      candidate_set ["A", "B", "A"] {"A"} = candidate_set ["B", "A"] {"A"} ∧
      get_unique_value (fun _ => none) ["A", "B", "A"] {"A"}
        = get_unique_value (fun _ => none) ["B", "A"] {"A"} :=
  C7_duplicate_invariance (fun _ => none) {"A"} ["A", "B", "A"] ["B", "A"]
    (by decide)

/-- Claim C8 — Structural validation: `validate_json_structure` rejects (raises
`ValueError`) exactly when some entry's key set differs from the required key
set — a missing required key or an extra unrecognized key — and `load_json`
returns the data unchanged exactly when every entry's key set equals the
required set (in particular on the empty list). -/
theorem C8_structural_validation (data : List Entry)
    (required_keys : List String) :
    (validate_json_structure data required_keys = .ok () ↔
        ∀ entry ∈ data, entryKeys entry = required_keys.toFinset) ∧
      ((∃ err, validate_json_structure data required_keys = .error err) ↔
        ∃ entry ∈ data, entryKeys entry ≠ required_keys.toFinset) ∧
      (load_json data required_keys = .ok data ↔
        ∀ entry ∈ data, entryKeys entry = required_keys.toFinset) := by
  have main : ∀ d : List Entry,
      validate_json_structure d required_keys = .ok () ↔
        ∀ entry ∈ d, entryKeys entry = required_keys.toFinset := by
    intro d
    induction d with
    | nil => simp [validate_json_structure]
    | cons e rest ih =>
      rw [validate_json_structure]
      by_cases hmiss : required_keys.toFinset \ entryKeys e ≠ ∅
      · rw [if_pos hmiss]
        refine ⟨fun h => Except.noConfusion h, fun h => absurd ?_ hmiss⟩
        rw [h e (List.mem_cons_self e rest)]
        exact Finset.sdiff_self _
      · rw [if_neg hmiss]
        have hm : required_keys.toFinset ⊆ entryKeys e :=
          Finset.sdiff_eq_empty_iff_subset.mp (not_not.mp hmiss)
        by_cases hinv : entryKeys e \ required_keys.toFinset ≠ ∅
        · rw [if_pos hinv]
          refine ⟨fun h => Except.noConfusion h, fun h => absurd ?_ hinv⟩
          rw [h e (List.mem_cons_self e rest)]
          exact Finset.sdiff_self _
        · rw [if_neg hinv]
          have hi : entryKeys e ⊆ required_keys.toFinset :=
            Finset.sdiff_eq_empty_iff_subset.mp (not_not.mp hinv)
          have he : entryKeys e = required_keys.toFinset :=
            Finset.Subset.antisymm hi hm
          rw [ih]
          constructor
          · intro h x hx
            rcases List.mem_cons.mp hx with rfl | hx'
            · exact he
            · exact h x hx'
          · intro h x hx
            exact h x (List.mem_cons_of_mem e hx)
  have dich : (∃ err, validate_json_structure data required_keys
        = .error err) ↔
      ¬(validate_json_structure data required_keys = .ok ()) := by
    cases hv : validate_json_structure data required_keys with
    | ok u =>
      cases u
      simp
    | error e => simp
  refine ⟨main data, ?_, ?_⟩
  · rw [dich, main data]
    push_neg
    exact Iff.rfl
  · rw [load_json]
    cases hv : validate_json_structure data required_keys with
    | ok u =>
      cases u
      simp only [Except.map]
      simp only [true_iff, iff_true, eq_self_iff_true]
      exact (main data).mp hv
    | error e =>
      simp only [Except.map]
      refine ⟨fun h => Except.noConfusion h,
        fun h => absurd ((main data).mpr h) ?_⟩
      rw [hv]
      simp
/-- Witness for C8: a well-formed list is accepted and returned unchanged,
via the theorem applied at concrete data. -/
theorem C8_witness :
    load_json [[("a", "1"), ("b", "2")]] ["a", "b"]
      = .ok [[("a", "1"), ("b", "2")]] :=
  (C8_structural_validation [[("a", "1"), ("b", "2")]] ["a", "b"]).2.2.mpr
    (by decide)

/-- Claim C9 — Totality on non-empty pools: for every non-empty pool and every
used-set whatsoever, the candidate set handed to `random.choice` is non-empty
and the selector returns a value (the `IndexError` branch is unreachable). -/
theorem C9_totality (choose : Finset String → Option String)
    (hc : ValidChoice choose) (values : List String) (hv : values ≠ [])
    (used : Finset String) :
    candidate_set values used ≠ ∅ ∧
      (get_unique_value choose values used).2.isSome := by
  have hnf : values.toFinset ≠ ∅ := fun h =>
    hv ((List.toFinset_eq_empty_iff values).mp h)
  constructor
  · rw [candidate_set]
    split
    · exact hnf
    · assumption
  · obtain ⟨v, _, hsnd⟩ := get_unique_value_total hc hv used
    rw [hsnd]
    rfl

/-- Witness for C9 at a concrete pool containing values already used and
values not in the pool. -/
theorem C9_witness :
    ValidChoice minChoice ∧ (["A"] ≠ ([] : List String)) ∧
      candidate_set ["A"] {"A", "Z"} ≠ ∅ ∧
      (get_unique_value minChoice ["A"] {"A", "Z"}).2.isSome :=
  ⟨validChoice_minChoice, by simp,
    C9_totality minChoice validChoice_minChoice ["A"] (by simp) {"A", "Z"}⟩

/-- Claim C10 — The module-level selector `utils.get_unique_value` and the
mixin's private copy `Degree._get_unique_value` implement the same function:
for every injected choice function, pool and used-set they produce the same
result and the same final used-set. -/
theorem C10_selector_copies_equivalent (choose : Finset String → Option String)
    (values : List String) (used_values : Finset String) :
    Degree._get_unique_value choose values used_values
      = get_unique_value choose values used_values := rfl

end Fakernaija
